import Mathlib

/-!
Verification of the `terminal-input` crate (src/lib.rs) against its
natural-language specification.

The public surface in `src/lib.rs` defines the `Modifiers` bitmap, the
`KeyInput` and `Event` sum types, and the `InputStream` wrapper whose
`set_escdelay` forwards a clamped millisecond count to the terminal
driver.  The internal decoding module (`imp_ncurses`) is not part of the
visible sources; the decoder step function below is therefore modelled
from the specification's §4.2 state machine and decoding policies.

Machine integers are embedded as `Nat` with their ranges stated where
they matter (`Modifiers` wraps a `u8`, so its bit value is below 256).
-/

namespace TerminalInput

/-- Rust `pub struct Modifiers(u8)` (src/lib.rs line 13): an opaque bitmap
of modifier keys.  The wrapped `u8` is embedded as a `Nat`; genuine Rust
values satisfy `val < 256`, which theorems assume where it matters. -/
structure Modifiers where
  val : Nat
deriving DecidableEq

/-- Rust `impl BitOr for Modifiers` (src/lib.rs lines 15-21):
`Modifiers(self.0 | other.0)`. -/
def Modifiers.bitorImpl (a b : Modifiers) : Modifiers :=
  ⟨a.val ||| b.val⟩

/-- Rust `impl BitAnd for Modifiers` (src/lib.rs lines 23-29):
`Modifiers(self.0 & other.0)`. -/
def Modifiers.bitandImpl (a b : Modifiers) : Modifiers :=
  ⟨a.val &&& b.val⟩

/-- Rust `Modifiers::NONE = Modifiers(0)` (src/lib.rs line 32). -/
def Modifiers.NONE : Modifiers := ⟨0⟩

/-- Rust `Modifiers::SHIFT = Modifiers(0b1)` (src/lib.rs line 34). -/
def Modifiers.SHIFT : Modifiers := ⟨1⟩

/-- Rust `Modifiers::ALT = Modifiers(0b10)` (src/lib.rs line 35). -/
def Modifiers.ALT : Modifiers := ⟨2⟩

/-- Rust `Modifiers::CTRL = Modifiers(0b100)` (src/lib.rs line 36). -/
def Modifiers.CTRL : Modifiers := ⟨4⟩

/-- Rust `Modifiers::remove` (src/lib.rs lines 38-40):
`Modifiers(self.0 & !other.0)`.  The `u8` bitwise complement `!x` is
`255 ^^^ x` for `x < 256`. -/
def Modifiers.remove (a b : Modifiers) : Modifiers :=
  ⟨a.val &&& (255 ^^^ b.val)⟩

/-- Rust inherent const fn `Modifiers::bitor` (src/lib.rs lines 43-45):
`Modifiers(self.0 | other.0)`. -/
def Modifiers.bitor (a b : Modifiers) : Modifiers :=
  ⟨a.val ||| b.val⟩

/-- Rust inherent const fn `Modifiers::bitand` (src/lib.rs lines 47-49):
`Modifiers(self.0 & other.0)`. -/
def Modifiers.bitand (a b : Modifiers) : Modifiers :=
  ⟨a.val &&& b.val⟩

/-- Rust inherent const fn `Modifiers::eq` (src/lib.rs lines 51-53):
`self.0 == other.0`. -/
def Modifiers.eq (a b : Modifiers) : Bool :=
  a.val == b.val

/-- Rust derived `PartialEq` for `Modifiers` (src/lib.rs line 12):
compares the single wrapped field. -/
def Modifiers.derivedEq (a b : Modifiers) : Bool :=
  a.val == b.val

/-- Rust `core::time::Duration`: `secs : u64` plus `nanos : u32` with
`nanos < 1_000_000_000`.  Embedded with `Nat` fields; `as_millis` below
never overflows `u128`, so no wraparound is modelled. -/
structure Duration where
  secs : Nat
  nanos : Nat
deriving DecidableEq

/-- Rust `Duration::as_millis`: whole milliseconds,
`secs * 1000 + nanos / 1_000_000` (as `u128`, which cannot overflow for
`u64` secs). -/
def Duration.as_millis (d : Duration) : Nat :=
  d.secs * 1000 + d.nanos / 1000000

/-- Rust `u128 → i32` `TryInto::try_into`: succeeds exactly when the
(nonnegative) value fits below or at `i32::MAX = 2147483647`. -/
def u128TryIntoI32 (n : Nat) : Option Int :=
  if n ≤ 2147483647 then some (n : Int) else none

/-- Rust `InputStream::set_escdelay` (src/lib.rs lines 136-140): computes
`escdelay.as_millis().try_into().unwrap_or(i32::MAX)` and passes it to the
driver's `set_escdelay`.  The function itself returns `()`; this embedding
returns the `i32` value handed to the driver. -/
def set_escdelay (escdelay : Duration) : Int :=
  (u128TryIntoI32 escdelay.as_millis).getD 2147483647

/-- Rust `pub enum KeyInput` (src/lib.rs lines 102-109): a decoded Unicode
codepoint, a raw undecodable byte (`u8`, embedded as `Nat`), or a
driver-defined special-key code (`i32`, embedded as `Int`). -/
inductive KeyInput where
  | Codepoint (c : Char)
  | Byte (b : Nat)
  | Special (code : Int)
deriving DecidableEq

/-- Rust `pub enum Event` (src/lib.rs lines 62-100).  `buttons` is the
ncurses `mmask_t` bitmask, `device_id` a `u16`, coordinates `u32`; all
embedded as `Nat`. -/
inductive Event where
  | KeyPress (modifiers : Modifiers) (key : KeyInput) (is_repeat : Bool)
  | KeyRelease (modifiers : Modifiers) (key : KeyInput)
  | Mouse (device_id : Nat) (modifiers : Modifiers) (buttons : Nat) (x : Nat) (y : Nat)
  | PasteBegin
  | PasteEnd
  | Resize (width : Nat) (height : Nat)
deriving DecidableEq

/-- Modelled from the spec: the raw-signal alphabet of the terminal-driver
collaborator (spec §6), consumed by the decoding module `imp_ncurses`,
which is not among the visible sources.  One signal is one of: a decoded
Unicode scalar value, an undecodable raw byte, a driver-defined
special-key code, a mouse report (device id, modifier bits, button
bitmask, coordinates, and a flag distinguishing a button-state change
from pure motion), a paste-begin/paste-end marker, a resize notification,
or a malformed signal that cannot be classified into any known event
shape. -/
inductive RawSignal where
  | CharSig (c : Char)
  | InvalidByteSig (b : Nat)
  | SpecialSig (code : Int)
  | MouseSig (device_id : Nat) (mods : Modifiers) (buttons : Nat)
      (x : Nat) (y : Nat) (buttonChange : Bool)
  | PasteBeginSig
  | PasteEndSig
  | ResizeSig (width : Nat) (height : Nat)
  | MalformedSig
deriving DecidableEq

/-- Modelled from the spec: the decoder's long-lived state (spec §4.2
state machine), whose only dimension visible at the raw-signal interface
is the paste-mode flag (`Normal` is `pasting = false`, `Pasting` is
`pasting = true`); byte-level escape/UTF-8 assembly happens inside the
driver collaborator, which already delivers whole signals. -/
structure DecoderState where
  pasting : Bool
deriving DecidableEq

/-- Modelled from the spec: the decoder's initial state is `Normal`. -/
def initState : DecoderState := ⟨false⟩

/-- Modelled from the spec: the control-character-to-modifier heuristic
(spec §4.2).  Control characters conventionally produced by holding Ctrl
with a letter (0x01-0x1A) decode to the corresponding lowercase printable
letter; other codepoints are not rewritten. -/
def ctrlHeuristic (c : Char) : Option Char :=
  if 1 ≤ c.toNat ∧ c.toNat ≤ 26 then some (Char.ofNat (c.toNat + 96)) else none

/-- Modelled from the spec: one step of the input decoder `imp_ncurses`
(spec §4.2), which is not among the visible sources: given the current
state and one raw driver signal, produce one `Event` or a decode error,
together with the successor state.
  - Codepoints pass through with `modifiers = NONE`, except that outside
    a paste region the control-character heuristic rewrites Ctrl-letter
    control bytes to `CTRL` plus the printable letter; inside a paste
    region the heuristic is suppressed and the literal codepoint is
    surfaced.
  - Undecodable bytes surface as `KeyInput.Byte` without error.
  - Special-key codes pass through opaquely.
  - Mouse reports carry their modifier bits only on button-state changes.
  - Paste markers follow the two-state machine `Normal`/`Pasting`; a
    marker arriving in the state for which the machine defines no
    transition cannot be classified and is a decode error.
  - A malformed signal is a decode error; every decode error leaves the
    state unchanged.
  - `is_repeat` is best-effort and `false` absent positive evidence; the
    single-signal interface carries no such evidence, so it is `false`. -/
def next_event (s : DecoderState) (sig : RawSignal) :
    Except Unit Event × DecoderState :=
  match sig with
  | .CharSig c =>
      if s.pasting then
        (.ok (.KeyPress Modifiers.NONE (.Codepoint c) false), s)
      else
        match ctrlHeuristic c with
        | some letter => (.ok (.KeyPress Modifiers.CTRL (.Codepoint letter) false), s)
        | none => (.ok (.KeyPress Modifiers.NONE (.Codepoint c) false), s)
  | .InvalidByteSig b =>
      (.ok (.KeyPress Modifiers.NONE (.Byte b) false), s)
  | .SpecialSig code =>
      (.ok (.KeyPress Modifiers.NONE (.Special code) false), s)
  | .MouseSig device_id mods buttons x y buttonChange =>
      (.ok (.Mouse device_id (if buttonChange then mods else Modifiers.NONE) buttons x y), s)
  | .PasteBeginSig =>
      if s.pasting then (.error (), s) else (.ok .PasteBegin, ⟨true⟩)
  | .PasteEndSig =>
      if s.pasting then (.ok .PasteEnd, ⟨false⟩) else (.error (), s)
  | .ResizeSig w h =>
      (.ok (.Resize w h), s)
  | .MalformedSig =>
      (.error (), s)

/-- Feed a finite sequence of raw driver signals through the decoder,
collecting the emitted events; failed reads emit nothing (callers discard
them and call again, spec §4.2 failure semantics). -/
def runDecoder (s : DecoderState) : List RawSignal → List Event
  | [] => []
  | sig :: rest =>
    match next_event s sig with
    | (.ok e, s2) => e :: runDecoder s2 rest
    | (.error _, s2) => runDecoder s2 rest

/-- Project an event onto the paste-marker alphabet: `PasteBegin` is
`true`, `PasteEnd` is `false`, anything else is dropped. -/
def pasteMarker : Event → Option Bool
  | .PasteBegin => some true
  | .PasteEnd => some false
  | _ => none

/-- A list of paste markers alternates starting from the expected first
marker: `alternatesFrom true ms` says `ms` is `Begin, End, Begin, End, …`,
so each `Begin` is followed by exactly one `End` before the next `Begin`. -/
def alternatesFrom : Bool → List Bool → Bool
  | _, [] => true
  | e, b :: rest => (b == e) && alternatesFrom (!e) rest

/-- Helper: from any state, the paste markers emitted by the decoder
alternate, the next expected marker being `PasteEnd` exactly when the
state is already pasting. -/
theorem runDecoder_markers_alternate (sigs : List RawSignal) :
    ∀ s : DecoderState,
      alternatesFrom (!s.pasting) ((runDecoder s sigs).filterMap pasteMarker) = true := by
  induction sigs with
  | nil => intro s; rfl
  | cons sig rest ih =>
    intro s
    cases sig with
    | CharSig c =>
        by_cases hp : s.pasting
        · simpa [runDecoder, next_event, hp, pasteMarker] using ih s
        · rcases hc : ctrlHeuristic c with _ | l <;>
            simpa [runDecoder, next_event, hp, hc, pasteMarker] using ih s
    | InvalidByteSig b =>
        simpa [runDecoder, next_event, pasteMarker] using ih s
    | SpecialSig code =>
        simpa [runDecoder, next_event, pasteMarker] using ih s
    | MouseSig d m btns x y ch =>
        simpa [runDecoder, next_event, pasteMarker] using ih s
    | PasteBeginSig =>
        by_cases hp : s.pasting
        · simpa [runDecoder, next_event, hp, pasteMarker] using ih s
        · simpa [runDecoder, next_event, hp, pasteMarker, alternatesFrom] using ih ⟨true⟩
    | PasteEndSig =>
        by_cases hp : s.pasting
        · simpa [runDecoder, next_event, hp, pasteMarker, alternatesFrom] using ih ⟨false⟩
        · simpa [runDecoder, next_event, hp, pasteMarker] using ih s
    | ResizeSig w h =>
        simpa [runDecoder, next_event, pasteMarker] using ih s
    | MalformedSig =>
        simpa [runDecoder, next_event, pasteMarker] using ih s

/-- C1: for the control byte 0x01 received outside a paste region,
`next_event` yields `KeyPress{modifiers: CTRL, key: Codepoint('a'),
is_repeat: false}`; for the same byte received strictly between a
`PasteBegin` and the matching `PasteEnd`, it yields a `KeyPress` with
modifiers `NONE` and the literal codepoint U+0001, the heuristic not
firing. -/
theorem ctrl_heuristic_fires_only_outside_paste :
    next_event initState (.CharSig (Char.ofNat 1)) =
      (.ok (.KeyPress Modifiers.CTRL (.Codepoint 'a') false), initState) ∧
    runDecoder initState [.PasteBeginSig, .CharSig (Char.ofNat 1), .PasteEndSig] =
      [.PasteBegin,
       .KeyPress Modifiers.NONE (.Codepoint (Char.ofNat 1)) false,
       .PasteEnd] := by
  constructor <;> rfl

/-- C2: over every finite sequence of raw driver signals fed to the
decoder starting in the `Normal` state, the emitted paste markers
alternate `PasteBegin`, `PasteEnd`, `PasteBegin`, …: each emitted
`PasteBegin` is followed, before any subsequent `PasteBegin`, by exactly
one `PasteEnd`. -/
theorem paste_brackets_correct (sigs : List RawSignal) :
    alternatesFrom true ((runDecoder initState sigs).filterMap pasteMarker) = true :=
  runDecoder_markers_alternate sigs initState

/-- C3: `next_event` is atomic on error: whenever a call returns a decode
error, the decoder state is unchanged, so a subsequent call with any
signal produces exactly what it would have produced had the failed signal
never occurred. -/
theorem next_event_error_atomic (s : DecoderState) (sig : RawSignal)
    (h : (next_event s sig).1 = .error ()) :
    (next_event s sig).2 = s ∧
    ∀ sig2 : RawSignal, next_event (next_event s sig).2 sig2 = next_event s sig2 := by
  have hs : (next_event s sig).2 = s := by
    obtain ⟨p⟩ := s
    cases sig with
    | CharSig c =>
        cases p with
        | false =>
            rcases hc : ctrlHeuristic c with _ | l <;> simp [next_event, hc] at h
        | true => simp [next_event] at h
    | PasteBeginSig => cases p <;> simp [next_event] at h ⊢
    | PasteEndSig => cases p <;> simp [next_event] at h ⊢
    | MalformedSig => rfl
    | _ => cases p <;> simp [next_event] at h
  exact ⟨hs, fun sig2 => by rw [hs]⟩

/-- Witness for C3 at the malformed signal from the initial state,
followed by the printable character x. -/
theorem next_event_error_atomic_witness :
    (next_event initState .MalformedSig).2 = initState ∧
    next_event (next_event initState .MalformedSig).2 (.CharSig 'x') =
      next_event initState (.CharSig 'x') :=
  ⟨(next_event_error_atomic initState .MalformedSig rfl).1,
   (next_event_error_atomic initState .MalformedSig rfl).2 (.CharSig 'x')⟩

/-- C4: an undecodable byte yields `KeyPress` with `KeyInput.Byte` of that
byte — never a decode error — leaves the decoder state unchanged, and the
immediately following signal decodes exactly as it would have without the
invalid byte. -/
theorem invalid_byte_yields_byte_no_contamination
    (s : DecoderState) (b : Nat) (sig2 : RawSignal) :
    (next_event s (.InvalidByteSig b)).1 =
      .ok (.KeyPress Modifiers.NONE (.Byte b) false) ∧
    (next_event s (.InvalidByteSig b)).2 = s ∧
    next_event (next_event s (.InvalidByteSig b)).2 sig2 = next_event s sig2 :=
  ⟨rfl, rfl, rfl⟩

/-- C5: `set_escdelay` hands the driver the duration in whole
milliseconds when that count fits in a signed 32-bit integer, and
`i32::MAX` otherwise. -/
theorem set_escdelay_clamps (d : Duration) :
    (d.as_millis ≤ 2147483647 → set_escdelay d = (d.as_millis : Int)) ∧
    (2147483647 < d.as_millis → set_escdelay d = 2147483647) := by
  refine ⟨fun h => ?_, fun h => ?_⟩
  · simp [set_escdelay, u128TryIntoI32, h]
  · simp [set_escdelay, u128TryIntoI32, Nat.not_le.mpr h]

/-- Witness for C5: a 1.5-second duration passes 1500 ms; a duration of
three billion seconds overflows and passes the clamp 2147483647. -/
theorem set_escdelay_clamps_witness :
    set_escdelay ⟨1, 500000000⟩ = 1500 ∧
    set_escdelay ⟨3000000000, 0⟩ = 2147483647 := by
  constructor
  · have h := (set_escdelay_clamps ⟨1, 500000000⟩).1 (by norm_num [Duration.as_millis])
    simpa [Duration.as_millis] using h
  · exact (set_escdelay_clamps ⟨3000000000, 0⟩).2 (by norm_num [Duration.as_millis])

/-- C6: taking the union of two modifier sets and intersecting the result
with the first operand returns that operand. -/
theorem bitand_bitor_absorbs (a b : Modifiers) :
    Modifiers.bitand (Modifiers.bitor a b) a = a := by
  obtain ⟨x⟩ := a; obtain ⟨y⟩ := b
  simp only [Modifiers.bitor, Modifiers.bitand, Modifiers.mk.injEq]
  apply Nat.eq_of_testBit_eq
  intro i
  simp only [Nat.testBit_land, Nat.testBit_lor]
  cases x.testBit i <;> cases y.testBit i <;> rfl

/-- C7: removing the second operand's flags from a union equals removing
them from the first operand alone, for genuine `u8`-valued modifier
sets. -/
theorem remove_bitor_cancels (a b : Modifiers)
    (ha : a.val < 256) (hb : b.val < 256) :
    Modifiers.remove (Modifiers.bitor a b) b = Modifiers.remove a b := by
  obtain ⟨x⟩ := a; obtain ⟨y⟩ := b
  simp only [Modifiers.bitor, Modifiers.remove, Modifiers.mk.injEq]
  apply Nat.eq_of_testBit_eq
  intro i
  have h255 : (255 : Nat).testBit i = decide (i < 8) := by
    simpa using Nat.testBit_two_pow_sub_one 8 i
  simp only [Nat.testBit_land, Nat.testBit_lor, Nat.testBit_xor, h255]
  by_cases h8 : i < 8
  · simp only [h8]
    cases x.testBit i <;> cases y.testBit i <;> rfl
  · have h256 : (256 : Nat) ≤ 2 ^ i := by
      calc (256 : Nat) = 2 ^ 8 := by norm_num
        _ ≤ 2 ^ i := Nat.pow_le_pow_right (by norm_num) (le_of_not_lt h8)
    have hyi : y.testBit i = false :=
      Nat.testBit_lt_two_pow (lt_of_lt_of_le hb h256)
    simp [h8, hyi]

/-- Witness for C7 at the concrete sets SHIFT-plus-CTRL and
ALT-plus-CTRL. -/
theorem remove_bitor_cancels_witness :
    (Modifiers.mk 5).val < 256 ∧ (Modifiers.mk 6).val < 256 ∧
    Modifiers.remove (Modifiers.bitor ⟨5⟩ ⟨6⟩) ⟨6⟩ = Modifiers.remove ⟨5⟩ ⟨6⟩ :=
  ⟨by decide, by decide, remove_bitor_cancels ⟨5⟩ ⟨6⟩ (by decide) (by decide)⟩

/-- C8: `NONE` is the identity for union and the absorbing element for
intersection. -/
theorem none_identity_absorbing (a : Modifiers) :
    Modifiers.bitor a Modifiers.NONE = a ∧
    Modifiers.bitand a Modifiers.NONE = Modifiers.NONE := by
  obtain ⟨x⟩ := a
  constructor <;> simp [Modifiers.bitor, Modifiers.bitand, Modifiers.NONE]

/-- C9: the flag constants do not alias: SHIFT, ALT and CTRL are each
distinct from NONE and pairwise intersect to NONE. -/
theorem flags_do_not_alias :
    Modifiers.SHIFT ≠ Modifiers.NONE ∧
    Modifiers.ALT ≠ Modifiers.NONE ∧
    Modifiers.CTRL ≠ Modifiers.NONE ∧
    Modifiers.bitand Modifiers.SHIFT Modifiers.ALT = Modifiers.NONE ∧
    Modifiers.bitand Modifiers.ALT Modifiers.SHIFT = Modifiers.NONE ∧
    Modifiers.bitand Modifiers.SHIFT Modifiers.CTRL = Modifiers.NONE ∧
    Modifiers.bitand Modifiers.CTRL Modifiers.SHIFT = Modifiers.NONE ∧
    Modifiers.bitand Modifiers.ALT Modifiers.CTRL = Modifiers.NONE ∧
    Modifiers.bitand Modifiers.CTRL Modifiers.ALT = Modifiers.NONE := by
  decide

/-- C10: the inherent const operations on `Modifiers` coincide with the
trait implementations, and the const `eq` agrees with the derived
equality, which is exact structural equality. -/
theorem const_ops_agree_with_traits (a b : Modifiers) :
    Modifiers.bitor a b = Modifiers.bitorImpl a b ∧
    Modifiers.bitand a b = Modifiers.bitandImpl a b ∧
    Modifiers.eq a b = Modifiers.derivedEq a b ∧
    (Modifiers.eq a b = true ↔ a = b) := by
  refine ⟨rfl, rfl, rfl, ?_⟩
  obtain ⟨x⟩ := a; obtain ⟨y⟩ := b
  simp [Modifiers.eq, Modifiers.mk.injEq]

end TerminalInput
